import Mathlib

/-!
Verification development for the boilr template package
(pkg/template: context binding and template execution).

The Go source is shallowly embedded: JSON context values become `JVal`,
the mutable `FuncMap` becomes a function `String → Option Binding`,
prompt closures become name-keyed memoization state threaded explicitly,
and the directory walk becomes a fold over a list of source entries.
A Go panic (out-of-range slice index) is modelled as `Option.none`.
-/

namespace Boilr

/-- A JSON value, as produced by decoding the context file
(`map[string]interface` plus nested values in the Go source). -/
inductive JVal where
  | str (s : String)
  | num (n : Int)
  | boolean (b : Bool)
  | null
  | arr (xs : List JVal)
  | obj (fields : List (String × JVal))

/-- The decoded context file: a map from top-level variable name to value.
Modelled as an association list. -/
abbrev Context := List (String × JVal)

/-- Association-list lookup, first match wins (models a Go map read). -/
def alookup {α : Type} : List (String × α) → String → Option α
  | [], _ => none
  | (k, v) :: rest, n => if n = k then some v else alookup rest n

/-- `t.Context[parentKey]`: a missing key yields the nil interface value,
modelled as `JVal.null`. -/
def ctxGet (ctx : Context) (k : String) : JVal :=
  match alookup ctx k with
  | some v => v
  | none => JVal.null

/-- One entry of the template `FuncMap`, i.e. one zero-argument binding
closure as built by `handleBindDefaults` / `handleBindPrompts`.

* `constFalse` — the defaults-mode advanced gate `func() bool \x7b return false \x7d`;
* `constDefault v` — the defaults-mode closure returning `v`, extracting
  the first element when `v` is a slice (`val[0]`, which panics when empty);
* `gatePrompt name` — the interactive advanced-mode confirmation closure
  (`prompt.New(parentKey, false)`);
* `varPrompt name default` — the interactive top-level prompt closure
  (`prompt.New(parentKey, t.Context[parentKey])`);
* `child gateName childName default` — the interactive group-child closure:
  evaluate the gate; if true run the child prompt, else return the raw
  declared default. -/
inductive Binding where
  | constFalse
  | constDefault (v : JVal)
  | gatePrompt (name : String)
  | varPrompt (name : String) (default : JVal)
  | child (gateName : String) (childName : String) (default : JVal)

/-- The template function map restricted to variable bindings.
A Go map holds at most one value per key; we model it as a function. -/
abbrev FuncMap := String → Option Binding

/-- `t.FuncMap[k] = b` (map assignment overwrites). -/
def fmUpdate (fm : FuncMap) (k : String) (b : Binding) : FuncMap :=
  fun n => if n = k then some b else fm n

/-- Embedding of `handleBindDefaults` (src/unnamed/part_001 lines 218-250):
if the context value is a nested map, install the constant-false gate when
the map is non-empty and a default-extracting closure for every child;
otherwise install a default-extracting closure for the key itself. -/
def handleBindDefaults (ctx : Context) (fm : FuncMap) (parentKey : String) : FuncMap :=
  match ctxGet ctx parentKey with
  | JVal.obj childMap =>
    let fm1 := if childMap.isEmpty then fm else fmUpdate fm parentKey Binding.constFalse
    childMap.foldl (fun acc cw => fmUpdate acc cw.1 (Binding.constDefault cw.2)) fm1
  | v => fmUpdate fm parentKey (Binding.constDefault v)

/-- Embedding of `handleBindPrompts` (src/unnamed/part_001 lines 252-280):
if the context value is a nested map, install the gate prompt when the map
is non-empty and a gate-consulting closure for every child; otherwise
install a plain prompt for the key itself. -/
def handleBindPrompts (ctx : Context) (fm : FuncMap) (parentKey : String) : FuncMap :=
  match ctxGet ctx parentKey with
  | JVal.obj childMap =>
    let fm1 := if childMap.isEmpty then fm else fmUpdate fm parentKey (Binding.gatePrompt parentKey)
    childMap.foldl (fun acc cw => fmUpdate acc cw.1 (Binding.child parentKey cw.1 cw.2)) fm1
  | v => fmUpdate fm parentKey (Binding.varPrompt parentKey v)

/-- The loop body of `BindPrompts`: one top-level key handled in the
selected mode. -/
def bindStep (useDefaults : Bool) (ctx : Context) (fm : FuncMap) (k : String) : FuncMap :=
  if useDefaults then handleBindDefaults ctx fm k else handleBindPrompts ctx fm k

/-- Embedding of `(*dirTemplate).BindPrompts` (lines 109-117): iterate the
top-level context keys, dispatching on `ShouldUseDefaults`. -/
def BindPrompts (useDefaults : Bool) (ctx : Context) : FuncMap :=
  (ctx.map Prod.fst).foldl (bindStep useDefaults ctx) (fun _ => none)

/-- The state shared by all prompt closures of one render: the user's
answers (an oracle keyed by prompt name), the memoized answers, and the
log of prompts actually put to the user (most recent first). -/
structure PState where
  gateAnswers : String → Bool
  promptAnswers : String → JVal
  gateCache : List (String × Bool)
  promptCache : List (String × JVal)
  calls : List String

/-- Modelled from the spec: `pkg/prompt.New` for a boolean confirmation
(the advanced-mode gate) is missing from src/; per the spec it asks the
user once, memoizes the answer, and repeated invocations return the
memoized answer without prompting again. -/
def runGate (name : String) (st : PState) : Bool × PState :=
  match alookup st.gateCache name with
  | some b => (b, st)
  | none =>
    let b := st.gateAnswers name
    (b, { st with gateCache := (name, b) :: st.gateCache, calls := name :: st.calls })

/-- Modelled from the spec: `pkg/prompt.New` for a value prompt is missing
from src/; per the spec it asks the user once (seeded with the declared
default), memoizes the answer, and repeated invocations return the
memoized answer without prompting again. -/
def runPrompt (name : String) (st : PState) : JVal × PState :=
  match alookup st.promptCache name with
  | some v => (v, st)
  | none =>
    let v := st.promptAnswers name
    (v, { st with promptCache := (name, v) :: st.promptCache, calls := name :: st.calls })

/-- The default-extraction type switch shared by the defaults-mode
closures: a slice yields its first element (`val[0]`, a panic — `none` —
when the slice is empty); anything else is returned unchanged. -/
def firstIfList : JVal → Option JVal
  | JVal.arr xs => xs.head?
  | v => some v

/-- Invoking one binding closure: returns the produced value (`none`
models a Go panic) and the updated prompt state. -/
def evalBinding : Binding → PState → Option JVal × PState
  | Binding.constFalse, st => (some (JVal.boolean false), st)
  | Binding.constDefault v, st => (firstIfList v, st)
  | Binding.gatePrompt n, st =>
    let p := runGate n st
    (some (JVal.boolean p.1), p.2)
  | Binding.varPrompt n _, st =>
    let p := runPrompt n st
    (some p.1, p.2)
  | Binding.child g c d, st =>
    let p := runGate g st
    if p.1 then
      let q := runPrompt c p.2
      (some q.1, q.2)
    else
      (some d, p.2)

/-- An initial prompt state with trivial oracles and empty caches. -/
def pstInit : PState :=
  { gateAnswers := fun _ => false
    promptAnswers := fun _ => JVal.null
    gateCache := []
    promptCache := []
    calls := [] }

/-- Invoking a sequence of binding closures in order, keeping only the
final prompt state (models repeated variable references during a render). -/
def invokeSeq (bs : List Binding) (st : PState) : PState :=
  bs.foldl (fun s b => (evalBinding b s).2) st

/-- The variable names written by processing one context entry:
the key itself and, for a nested map, the child keys. -/
def entryNames : String × JVal → List String
  | (k, JVal.obj m) => k :: m.map Prod.fst
  | (k, _) => [k]

/-- All variable names reachable from a context (depth at most 2). -/
def ctxNames : Context → List String
  | [] => []
  | e :: rest => entryNames e ++ ctxNames rest

/-! ### The templating sub-language

Modelled from the spec: the templating engine (Go `text/template` plus
the sprig helpers) is an external collaborator; per the spec it provides
"string-substitution syntax supporting variable lookup by name".  A
template is literal text interleaved with `\x7b\x7bname\x7d\x7d`
references; a reference written with a leading dot also looks up the
plain name.  Bindings are installed as the function map, so a reference
invokes the binding for that name. -/

/-- One lexed template token: literal text or a variable reference. -/
inductive Tok where
  | lit (s : String)
  | ref (name : String)

/-- Normalize a reference: drop surrounding spaces and one leading dot. -/
def normRefChars (cs : List Char) : List Char :=
  let cs1 := (cs.dropWhile (fun c => c == ' ')).reverse
  let cs2 := (cs1.dropWhile (fun c => c == ' ')).reverse
  match cs2 with
  | '.' :: rest => rest
  | other => other

/-- Template scanner: `inRef` says whether we are inside an opened
`\x7b\x7b`; `acc` holds the current chunk's characters in reverse. -/
def scanT : Bool → List Char → List Char → List Tok
  | false, acc, [] => [Tok.lit (String.mk acc.reverse)]
  | false, acc, '\x7b' :: '\x7b' :: rest => Tok.lit (String.mk acc.reverse) :: scanT true [] rest
  | false, acc, c :: rest => scanT false (c :: acc) rest
  | true, acc, [] => [Tok.ref (String.mk (normRefChars acc.reverse))]
  | true, acc, '\x7d' :: '\x7d' :: rest =>
    Tok.ref (String.mk (normRefChars acc.reverse)) :: scanT false [] rest
  | true, acc, c :: rest => scanT true (c :: acc) rest

/-- Lex a template string. -/
def parseTemplate (s : String) : List Tok := scanT false [] s.data

/-- Printing a scalar value into the rendered output.  Composite and nil
values are not printed by this model; no claim depends on them. -/
def jvalRender : JVal → Option String
  | JVal.str s => some s
  | JVal.num n => some (toString n)
  | JVal.boolean b => some (if b then "true" else "false")
  | _ => none

/-- Render a token list against a resolved variable environment.
`none` models a fatal template-evaluation error. -/
def renderToks (env : String → Option JVal) : List Tok → Option String
  | [] => some ""
  | Tok.lit s :: ts =>
    match renderToks env ts with
    | none => none
    | some rest => some (s ++ rest)
  | Tok.ref n :: ts =>
    match env n with
    | none => none
    | some v =>
      match jvalRender v with
      | none => none
      | some s =>
        match renderToks env ts with
        | none => none
        | some rest => some (s ++ rest)

/-- Render a template string against an environment. -/
def renderString (env : String → Option JVal) (s : String) : Option String :=
  renderToks env (parseTemplate s)

/-- The spec's side condition "contains no template expressions":
the string lexes to a single literal chunk. -/
def noTemplateExpr (s : String) : Prop := parseTemplate s = [Tok.lit s]

/-! ### Filesystem model and the walk -/

/-- The Go regexp class `\s` used by `isOnlyWhitespace` via `\S`
(src/unnamed/part_001 lines 123-127): tab, newline, form feed, carriage
return, space. -/
def isWhitespaceChar (c : Char) : Bool :=
  c == ' ' || c == '\t' || c == '\n' || c == '\x0c' || c == '\r'

/-- Embedding of `isOnlyWhitespace`: no character of the buffer matches
`\S`; an empty buffer counts as whitespace-only. -/
def isOnlyWhitespace (s : String) : Bool := s.data.all isWhitespaceChar

/-- The spec's own whitespace wording for the pruning rule
("space/tab/newline"), kept separate for comparison with the code's
class `isWhitespaceChar`. -/
def specWhitespaceChar (c : Char) : Bool := c == ' ' || c == '\t' || c == '\n'

/-- The destination tree: rendered files (path to contents) and created
directories. -/
structure FS where
  files : List (String × String)
  dirs : List String

/-- Contents of the destination file at `p`, if present. -/
def fsGet (fs : FS) (p : String) : Option String := alookup fs.files p

/-- `os.Remove` on a destination file: removing a missing file is a
no-op (`IsNotExist` is swallowed by the source). -/
def fsRemoveFile (fs : FS) (p : String) : FS :=
  { fs with files := fs.files.filter (fun e => e.1 != p) }

/-- `filepath.Join(dirPrefix, newName)`. -/
def pathJoin (a b : String) : String := if a = "" then b else a ++ "/" ++ b

/-- A fatal error aborting the walk. -/
inductive WalkError where
  | templateError
  | removeFailed

/-- One source entry discovered by `filepath.Walk`, identified by its
path relative to the template root. -/
inductive Entry where
  | dir (rel : String)
  | file (rel : String) (content : String)

/-- Writing the freshly created destination file (`os.OpenFile` with
`O_CREATE` and `O_TRUNC` followed by the template write). -/
def fsAddFile (fs : FS) (p c : String) : FS :=
  { fs with files := (p, c) :: fs.files }

/-- Embedding of the file branch of the walk callback
(src/unnamed/part_001 lines 137-207): render the relative name, remove
any pre-existing destination file (a failing removal other than
"missing" — the `removeFails` oracle — is fatal), render the contents
into the fresh file, then prune it when the result is whitespace-only. -/
def processFile (env : String → Option JVal) (removeFails : String → Bool)
    (destRoot : String) (fs : FS) (relName content : String) : Except WalkError FS :=
  match renderString env relName with
  | none => Except.error WalkError.templateError
  | some newName =>
    if removeFails (pathJoin destRoot newName) then Except.error WalkError.removeFailed
    else
      match renderString env content with
      | none => Except.error WalkError.templateError
      | some out =>
        if isOnlyWhitespace out then
          Except.ok (fsRemoveFile
            (fsAddFile (fsRemoveFile fs (pathJoin destRoot newName))
              (pathJoin destRoot newName) out)
            (pathJoin destRoot newName))
        else
          Except.ok (fsAddFile (fsRemoveFile fs (pathJoin destRoot newName))
            (pathJoin destRoot newName) out)

/-- One step of the walk callback: directories are created at the
rendered path with "already exists" not an error; files go through
`processFile`. -/
def execEntry (env : String → Option JVal) (removeFails : String → Bool)
    (destRoot : String) (fs : FS) : Entry → Except WalkError FS
  | Entry.dir rel =>
    match renderString env rel with
    | none => Except.error WalkError.templateError
    | some newName =>
      let target := pathJoin destRoot newName
      Except.ok { fs with dirs := if target ∈ fs.dirs then fs.dirs else target :: fs.dirs }
  | Entry.file rel content => processFile env removeFails destRoot fs rel content

/-- Embedding of `(*dirTemplate).Execute`'s walk (lines 131-216): process
the source entries in walk order, aborting on the first fatal error. -/
def Execute (env : String → Option JVal) (removeFails : String → Bool)
    (destRoot : String) (fs0 : FS) : List Entry → Except WalkError FS
  | [] => Except.ok fs0
  | e :: rest =>
    match execEntry env removeFails destRoot fs0 e with
    | Except.error err => Except.error err
    | Except.ok fs1 => Execute env removeFails destRoot fs1 rest

/-- The rendered destination paths and contents a template-free source
tree is expected to produce. -/
def renderedFiles (destRoot : String) (entries : List Entry) : List (String × String) :=
  entries.filterMap (fun e =>
    match e with
    | Entry.file rel c => some (pathJoin destRoot rel, c)
    | Entry.dir _ => none)

/-! ### Context loading -/

/-- The outcome of opening and reading the context file. -/
inductive FileRead where
  | absent
  | openFailed
  | content (s : String)

/-- A fatal context-loading error. -/
inductive LoadError where
  | ioError
  | parseError

/-- Embedding of the context-loading closure in `Get`
(src/unnamed/part_001 lines 44-69): a missing file yields the empty
context; an unreadable file or undecodable content is fatal.  `decode`
models the external JSON decoder. -/
def loadContext (decode : String → Option Context) : FileRead → Except LoadError Context
  | FileRead.absent => Except.ok []
  | FileRead.openFailed => Except.error LoadError.ioError
  | FileRead.content s =>
    match decode s with
    | none => Except.error LoadError.parseError
    | some ctx => Except.ok ctx

/-- The resolved defaults-mode environment a context induces: each
reference invokes its binding (defaults-mode bindings ignore the prompt
state). -/
def envOfDefaults (ctx : Context) : String → Option JVal :=
  fun n =>
    match BindPrompts true ctx n with
    | some b => (evalBinding b pstInit).1
    | none => none

/-- An error aborting a whole run. -/
inductive RunError where
  | load (e : LoadError)
  | walk (e : WalkError)

/-- Loading followed by rendering (`Get` then `Execute` in defaults
mode): a load failure is fatal before any entry is processed. -/
def runTemplate (decode : String → Option Context) (r : FileRead)
    (removeFails : String → Bool) (destRoot : String)
    (entries : List Entry) (fs0 : FS) : Except RunError FS :=
  match loadContext decode r with
  | Except.error e => Except.error (RunError.load e)
  | Except.ok ctx =>
    match Execute (envOfDefaults ctx) removeFails destRoot fs0 entries with
    | Except.error e => Except.error (RunError.walk e)
    | Except.ok fs => Except.ok fs

/-! ### Lookup lemmas for the binding table -/

theorem alookup_mem_nodup {α : Type} (l : List (String × α)) (k : String) (v : α)
    (hnd : (l.map Prod.fst).Nodup) (hmem : (k, v) ∈ l) : alookup l k = some v := by
  induction l with
  | nil => cases hmem
  | cons e rest ih =>
    obtain ⟨k', v'⟩ := e
    simp only [List.map_cons, List.nodup_cons] at hnd
    rcases List.mem_cons.mp hmem with heq | hrest
    · cases heq
      simp [alookup]
    · have hk : k ≠ k' := by
        intro h
        subst h
        exact hnd.1 (List.mem_map.mpr ⟨(k, v), hrest, rfl⟩)
      simp only [alookup, if_neg hk]
      exact ih hnd.2 hrest

theorem fmUpdate_self (fm : FuncMap) (k : String) (b : Binding) :
    fmUpdate fm k b k = some b := by
  simp [fmUpdate]

theorem fmUpdate_other (fm : FuncMap) (k : String) (b : Binding) (n : String) (h : n ≠ k) :
    fmUpdate fm k b n = fm n := by
  simp [fmUpdate, h]

theorem foldUpd_frame (f : String × JVal → Binding) (m : List (String × JVal)) (fm : FuncMap)
    (n : String) (hn : n ∉ m.map Prod.fst) :
    (m.foldl (fun acc cw => fmUpdate acc cw.1 (f cw)) fm) n = fm n := by
  induction m generalizing fm with
  | nil => rfl
  | cons cw rest ih =>
    simp only [List.map_cons, List.mem_cons, not_or] at hn
    simp only [List.foldl_cons]
    rw [ih (fmUpdate fm cw.1 (f cw)) hn.2]
    exact fmUpdate_other fm cw.1 (f cw) n hn.1

theorem foldUpd_hit (f : String × JVal → Binding) (m : List (String × JVal)) (fm : FuncMap)
    (c : String) (w : JVal) (hnd : (m.map Prod.fst).Nodup) (hmem : (c, w) ∈ m) :
    (m.foldl (fun acc cw => fmUpdate acc cw.1 (f cw)) fm) c = some (f (c, w)) := by
  induction m generalizing fm with
  | nil => cases hmem
  | cons cw rest ih =>
    simp only [List.map_cons, List.nodup_cons] at hnd
    rcases List.mem_cons.mp hmem with heq | hrest
    · cases heq
      simp only [List.foldl_cons]
      rw [foldUpd_frame f rest (fmUpdate fm c (f (c, w))) c hnd.1]
      exact fmUpdate_self fm c (f (c, w))
    · simp only [List.foldl_cons]
      exact ih (fmUpdate fm cw.1 (f cw)) hnd.2 hrest

theorem handleBindDefaults_eq_of_not_obj (ctx : Context) (fm : FuncMap) (k : String) (v : JVal)
    (hv : ctxGet ctx k = v) (hsc : ∀ m, v ≠ JVal.obj m) :
    handleBindDefaults ctx fm k = fmUpdate fm k (Binding.constDefault v) := by
  unfold handleBindDefaults
  rw [hv]
  cases v with
  | obj m => exact absurd rfl (hsc m)
  | str s => rfl
  | num n => rfl
  | boolean b => rfl
  | null => rfl
  | arr xs => rfl

theorem handleBindDefaults_eq_of_obj (ctx : Context) (fm : FuncMap) (k : String)
    (m : List (String × JVal)) (hv : ctxGet ctx k = JVal.obj m) :
    handleBindDefaults ctx fm k =
      m.foldl (fun acc cw => fmUpdate acc cw.1 (Binding.constDefault cw.2))
        (if m.isEmpty then fm else fmUpdate fm k Binding.constFalse) := by
  unfold handleBindDefaults
  rw [hv]

theorem handleBindPrompts_eq_of_not_obj (ctx : Context) (fm : FuncMap) (k : String) (v : JVal)
    (hv : ctxGet ctx k = v) (hsc : ∀ m, v ≠ JVal.obj m) :
    handleBindPrompts ctx fm k = fmUpdate fm k (Binding.varPrompt k v) := by
  unfold handleBindPrompts
  rw [hv]
  cases v with
  | obj m => exact absurd rfl (hsc m)
  | str s => rfl
  | num n => rfl
  | boolean b => rfl
  | null => rfl
  | arr xs => rfl

theorem handleBindPrompts_eq_of_obj (ctx : Context) (fm : FuncMap) (k : String)
    (m : List (String × JVal)) (hv : ctxGet ctx k = JVal.obj m) :
    handleBindPrompts ctx fm k =
      m.foldl (fun acc cw => fmUpdate acc cw.1 (Binding.child k cw.1 cw.2))
        (if m.isEmpty then fm else fmUpdate fm k (Binding.gatePrompt k)) := by
  unfold handleBindPrompts
  rw [hv]

theorem handleBindDefaults_frame (ctx : Context) (fm : FuncMap) (k n : String)
    (hn : n ∉ entryNames (k, ctxGet ctx k)) : handleBindDefaults ctx fm k n = fm n := by
  cases hv : ctxGet ctx k
  case obj m =>
    rw [hv] at hn
    simp only [entryNames, List.mem_cons, not_or] at hn
    rw [handleBindDefaults_eq_of_obj ctx fm k m hv]
    rw [foldUpd_frame (fun cw => Binding.constDefault cw.2) m _ n hn.2]
    by_cases he : m.isEmpty
    · simp [he]
    · simp only [he, Bool.false_eq_true, if_neg, if_false]
      exact fmUpdate_other fm k Binding.constFalse n hn.1
  all_goals {
    rw [hv] at hn
    simp only [entryNames, List.mem_singleton] at hn
    rw [handleBindDefaults_eq_of_not_obj ctx fm k _ hv (by intro m h; cases h)]
    exact fmUpdate_other fm k _ n hn }

theorem handleBindPrompts_frame (ctx : Context) (fm : FuncMap) (k n : String)
    (hn : n ∉ entryNames (k, ctxGet ctx k)) : handleBindPrompts ctx fm k n = fm n := by
  cases hv : ctxGet ctx k
  case obj m =>
    rw [hv] at hn
    simp only [entryNames, List.mem_cons, not_or] at hn
    rw [handleBindPrompts_eq_of_obj ctx fm k m hv]
    rw [foldUpd_frame (fun cw => Binding.child k cw.1 cw.2) m _ n hn.2]
    by_cases he : m.isEmpty
    · simp [he]
    · simp only [he, Bool.false_eq_true, if_neg, if_false]
      exact fmUpdate_other fm k (Binding.gatePrompt k) n hn.1
  all_goals {
    rw [hv] at hn
    simp only [entryNames, List.mem_singleton] at hn
    rw [handleBindPrompts_eq_of_not_obj ctx fm k _ hv (by intro m h; cases h)]
    exact fmUpdate_other fm k _ n hn }

theorem bindStep_frame (d : Bool) (ctx : Context) (fm : FuncMap) (k n : String)
    (hn : n ∉ entryNames (k, ctxGet ctx k)) : bindStep d ctx fm k n = fm n := by
  cases d
  · exact handleBindPrompts_frame ctx fm k n hn
  · exact handleBindDefaults_frame ctx fm k n hn

theorem foldKeys_frame (d : Bool) (ctx : Context) (ks : List String) (fm : FuncMap) (n : String)
    (h : ∀ k ∈ ks, n ∉ entryNames (k, ctxGet ctx k)) :
    (ks.foldl (bindStep d ctx) fm) n = fm n := by
  induction ks generalizing fm with
  | nil => rfl
  | cons k rest ih =>
    simp only [List.foldl_cons]
    rw [ih (bindStep d ctx fm k) (fun k' hk' => h k' (List.mem_cons_of_mem k hk'))]
    exact bindStep_frame d ctx fm k n (h k (List.mem_cons_self k rest))

theorem bindStep_hit_scalar (d : Bool) (ctx : Context) (fm : FuncMap) (k : String) (v : JVal)
    (hv : ctxGet ctx k = v) (hsc : ∀ m, v ≠ JVal.obj m) :
    bindStep d ctx fm k k =
      some (if d then Binding.constDefault v else Binding.varPrompt k v) := by
  cases d
  · show handleBindPrompts ctx fm k k = some (Binding.varPrompt k v)
    rw [handleBindPrompts_eq_of_not_obj ctx fm k v hv hsc]
    exact fmUpdate_self fm k _
  · show handleBindDefaults ctx fm k k = some (Binding.constDefault v)
    rw [handleBindDefaults_eq_of_not_obj ctx fm k v hv hsc]
    exact fmUpdate_self fm k _

theorem bindStep_hit_gate (d : Bool) (ctx : Context) (fm : FuncMap) (k : String)
    (m : List (String × JVal)) (hv : ctxGet ctx k = JVal.obj m) (hne : m ≠ [])
    (hk : k ∉ m.map Prod.fst) :
    bindStep d ctx fm k k = some (if d then Binding.constFalse else Binding.gatePrompt k) := by
  have he : m.isEmpty = false := by
    cases m with
    | nil => exact absurd rfl hne
    | cons a t => rfl
  cases d
  · show handleBindPrompts ctx fm k k = some (Binding.gatePrompt k)
    rw [handleBindPrompts_eq_of_obj ctx fm k m hv]
    rw [foldUpd_frame (fun cw => Binding.child k cw.1 cw.2) m _ k hk]
    simp only [he, Bool.false_eq_true, if_false]
    exact fmUpdate_self fm k (Binding.gatePrompt k)
  · show handleBindDefaults ctx fm k k = some Binding.constFalse
    rw [handleBindDefaults_eq_of_obj ctx fm k m hv]
    rw [foldUpd_frame (fun cw => Binding.constDefault cw.2) m _ k hk]
    simp only [he, Bool.false_eq_true, if_false]
    exact fmUpdate_self fm k Binding.constFalse

theorem bindStep_hit_child (d : Bool) (ctx : Context) (fm : FuncMap) (k : String)
    (m : List (String × JVal)) (c : String) (w : JVal) (hv : ctxGet ctx k = JVal.obj m)
    (hnd : (m.map Prod.fst).Nodup) (hcw : (c, w) ∈ m) :
    bindStep d ctx fm k c =
      some (if d then Binding.constDefault w else Binding.child k c w) := by
  cases d
  · show handleBindPrompts ctx fm k c = some (Binding.child k c w)
    rw [handleBindPrompts_eq_of_obj ctx fm k m hv]
    exact foldUpd_hit (fun cw => Binding.child k cw.1 cw.2) m _ c w hnd hcw
  · show handleBindDefaults ctx fm k c = some (Binding.constDefault w)
    rw [handleBindDefaults_eq_of_obj ctx fm k m hv]
    exact foldUpd_hit (fun cw => Binding.constDefault cw.2) m _ c w hnd hcw

theorem bindStep_emptyobj (d : Bool) (ctx : Context) (fm : FuncMap) (k : String)
    (hv : ctxGet ctx k = JVal.obj []) : bindStep d ctx fm k = fm := by
  cases d <;> simp [bindStep, handleBindDefaults, handleBindPrompts, hv]

theorem mem_ctxNames_of_mem (ctx : Context) (e : String × JVal) (x : String)
    (he : e ∈ ctx) (hx : x ∈ entryNames e) : x ∈ ctxNames ctx := by
  induction ctx with
  | nil => cases he
  | cons e' rest ih =>
    simp only [ctxNames, List.mem_append]
    rcases List.mem_cons.mp he with heq | hrest
    · subst heq
      exact Or.inl hx
    · exact Or.inr (ih hrest)

theorem ctxNames_append (l1 l2 : Context) :
    ctxNames (l1 ++ l2) = ctxNames l1 ++ ctxNames l2 := by
  induction l1 with
  | nil => rfl
  | cons e rest ih => simp [ctxNames, ih]

theorem entryNames_head (e : String × JVal) : ∃ t, entryNames e = e.1 :: t := by
  obtain ⟨k, v⟩ := e
  cases v <;> exact ⟨_, rfl⟩

theorem keys_sublist_ctxNames (ctx : Context) :
    List.Sublist (ctx.map Prod.fst) (ctxNames ctx) := by
  induction ctx with
  | nil => exact List.Sublist.refl []
  | cons e rest ih =>
    obtain ⟨t, ht⟩ := entryNames_head e
    simp only [List.map_cons, ctxNames, ht]
    show List.Sublist (e.1 :: rest.map Prod.fst) (e.1 :: (t ++ ctxNames rest))
    exact (ih.trans (List.sublist_append_right t (ctxNames rest))).cons₂ e.1

theorem keys_nodup_of_ctxNames_nodup (ctx : Context) (h : (ctxNames ctx).Nodup) :
    (ctx.map Prod.fst).Nodup :=
  h.sublist (keys_sublist_ctxNames ctx)

theorem ctxGet_of_mem (ctx : Context) (k : String) (v : JVal)
    (hnd : (ctx.map Prod.fst).Nodup) (hmem : (k, v) ∈ ctx) : ctxGet ctx k = v := by
  unfold ctxGet
  rw [alookup_mem_nodup ctx k v hnd hmem]

/-- Reduce a `BindPrompts` lookup of a name belonging to entry `(k, v)` to
the single `bindStep` for `k`, applied to some intermediate table that
does not yet bind the name. -/
theorem bindPrompts_reduces (d : Bool) (ctx : Context) (hnd : (ctxNames ctx).Nodup)
    (k : String) (v : JVal) (n : String) (hmem : (k, v) ∈ ctx) (hn : n ∈ entryNames (k, v)) :
    ∃ fm : FuncMap, BindPrompts d ctx n = bindStep d ctx fm k n ∧ fm n = none ∧
      ctxGet ctx k = v ∧ (entryNames (k, v)).Nodup := by
  obtain ⟨l1, l2, hsplit⟩ := List.append_of_mem hmem
  have hknd := keys_nodup_of_ctxNames_nodup ctx hnd
  have hget := ctxGet_of_mem ctx k v hknd hmem
  have hnames : ctxNames ctx = ctxNames l1 ++ (entryNames (k, v) ++ ctxNames l2) := by
    rw [hsplit, ctxNames_append]
    rfl
  rw [hnames] at hnd
  rw [List.nodup_append] at hnd
  obtain ⟨hnd1, hnd23, hdisj1⟩ := hnd
  rw [List.nodup_append] at hnd23
  obtain ⟨hndmid, hnd2, hdisj2⟩ := hnd23
  have hnotin1 : n ∉ ctxNames l1 := fun hin => hdisj1 hin (List.mem_append_left _ hn)
  have hnotin2 : n ∉ ctxNames l2 := fun hin => hdisj2 hn hin
  have hmem_of_l1 : ∀ e, e ∈ l1 → e ∈ ctx := by
    intro e he
    rw [hsplit]
    exact List.mem_append_left _ he
  have hmem_of_l2 : ∀ e, e ∈ l2 → e ∈ ctx := by
    intro e he
    rw [hsplit]
    exact List.mem_append_right _ (List.mem_cons_of_mem _ he)
  have huntouched : ∀ (l : Context), (∀ e, e ∈ l → e ∈ ctx) → n ∉ ctxNames l →
      ∀ k' ∈ l.map Prod.fst, n ∉ entryNames (k', ctxGet ctx k') := by
    intro l hsub hni k' hk'
    obtain ⟨e, hev, hfst⟩ := List.mem_map.mp hk'
    subst hfst
    rw [ctxGet_of_mem ctx e.1 e.2 hknd (hsub _ hev)]
    intro hbad
    exact hni (mem_ctxNames_of_mem l e n hev hbad)
  have hkeys : ctx.map Prod.fst = l1.map Prod.fst ++ k :: l2.map Prod.fst := by
    rw [hsplit]
    simp
  refine ⟨(l1.map Prod.fst).foldl (bindStep d ctx) (fun _ => none), ?_, ?_, hget, hndmid⟩
  · unfold BindPrompts
    rw [hkeys]
    rw [List.foldl_append]
    show (List.foldl (bindStep d ctx)
      (bindStep d ctx ((l1.map Prod.fst).foldl (bindStep d ctx) (fun _ => none)) k)
      (l2.map Prod.fst)) n = _
    exact foldKeys_frame d ctx (l2.map Prod.fst) _ n (huntouched l2 hmem_of_l2 hnotin2)
  · exact foldKeys_frame d ctx (l1.map Prod.fst) _ n (huntouched l1 hmem_of_l1 hnotin1)

/-- Defaults or interactive mode: a top-level key whose value is not a
nested map is bound to its default closure / prompt closure. -/
theorem bindLookup_scalar (d : Bool) (ctx : Context) (hnd : (ctxNames ctx).Nodup)
    (k : String) (v : JVal) (hmem : (k, v) ∈ ctx) (hsc : ∀ m, v ≠ JVal.obj m) :
    BindPrompts d ctx k = some (if d then Binding.constDefault v else Binding.varPrompt k v) := by
  have hk : k ∈ entryNames (k, v) := by
    obtain ⟨t, ht⟩ := entryNames_head (k, v)
    rw [ht]
    exact List.mem_cons_self _ _
  obtain ⟨fm, hred, _, hget, _⟩ := bindPrompts_reduces d ctx hnd k v k hmem hk
  rw [hred]
  exact bindStep_hit_scalar d ctx fm k v hget hsc

/-- Both modes: a non-empty group key is bound to its advanced-mode gate. -/
theorem bindLookup_gate (d : Bool) (ctx : Context) (hnd : (ctxNames ctx).Nodup)
    (k : String) (m : List (String × JVal)) (hmem : (k, JVal.obj m) ∈ ctx) (hne : m ≠ []) :
    BindPrompts d ctx k = some (if d then Binding.constFalse else Binding.gatePrompt k) := by
  have hk : k ∈ entryNames (k, JVal.obj m) := List.mem_cons_self _ _
  obtain ⟨fm, hred, _, hget, hmid⟩ := bindPrompts_reduces d ctx hnd k (JVal.obj m) k hmem hk
  simp only [entryNames, List.nodup_cons] at hmid
  rw [hred]
  exact bindStep_hit_gate d ctx fm k m hget hne hmid.1

/-- Both modes: a group child key is bound to its child closure. -/
theorem bindLookup_child (d : Bool) (ctx : Context) (hnd : (ctxNames ctx).Nodup)
    (k : String) (m : List (String × JVal)) (c : String) (w : JVal)
    (hmem : (k, JVal.obj m) ∈ ctx) (hcw : (c, w) ∈ m) :
    BindPrompts d ctx c = some (if d then Binding.constDefault w else Binding.child k c w) := by
  have hc : c ∈ entryNames (k, JVal.obj m) :=
    List.mem_cons_of_mem k (List.mem_map.mpr ⟨(c, w), hcw, rfl⟩)
  obtain ⟨fm, hred, _, hget, hmid⟩ := bindPrompts_reduces d ctx hnd k (JVal.obj m) c hmem hc
  simp only [entryNames, List.nodup_cons] at hmid
  rw [hred]
  exact bindStep_hit_child d ctx fm k m c w hget hmid.2 hcw

/-- Both modes: a key declared as an empty group receives no binding. -/
theorem bindLookup_emptyGroup (d : Bool) (ctx : Context) (hnd : (ctxNames ctx).Nodup)
    (k : String) (hmem : (k, JVal.obj []) ∈ ctx) : BindPrompts d ctx k = none := by
  have hk : k ∈ entryNames (k, JVal.obj []) := List.mem_cons_self _ _
  obtain ⟨fm, hred, hfmn, hget, _⟩ := bindPrompts_reduces d ctx hnd k (JVal.obj []) k hmem hk
  rw [hred, bindStep_emptyobj d ctx fm k hget]
  exact hfmn

/-! ### Evaluation lemmas: memoization and the advanced-mode gate -/

theorem runGate_cached (n : String) (st : PState) :
    alookup ((runGate n st).2).gateCache n = some ((runGate n st).1) := by
  unfold runGate
  cases h : alookup st.gateCache n with
  | some b => simpa using h
  | none => simp [alookup]

theorem runGate_hit (n : String) (st : PState) (b : Bool)
    (h : alookup st.gateCache n = some b) : runGate n st = (b, st) := by
  unfold runGate
  rw [h]

theorem runGate_idem (n : String) (st : PState) :
    runGate n ((runGate n st).2) = ((runGate n st).1, (runGate n st).2) :=
  runGate_hit n _ _ (runGate_cached n st)

theorem runPrompt_cached (n : String) (st : PState) :
    alookup ((runPrompt n st).2).promptCache n = some ((runPrompt n st).1) := by
  unfold runPrompt
  cases h : alookup st.promptCache n with
  | some v => simpa using h
  | none => simp [alookup]

theorem runPrompt_hit (n : String) (st : PState) (v : JVal)
    (h : alookup st.promptCache n = some v) : runPrompt n st = (v, st) := by
  unfold runPrompt
  rw [h]

theorem runPrompt_idem (n : String) (st : PState) :
    runPrompt n ((runPrompt n st).2) = ((runPrompt n st).1, (runPrompt n st).2) :=
  runPrompt_hit n _ _ (runPrompt_cached n st)

theorem runPrompt_gateCache (n : String) (st : PState) :
    ((runPrompt n st).2).gateCache = st.gateCache := by
  unfold runPrompt
  cases alookup st.promptCache n <;> rfl

theorem runGate_gateAnswers (n : String) (st : PState) :
    ((runGate n st).2).gateAnswers = st.gateAnswers := by
  unfold runGate
  cases alookup st.gateCache n <;> rfl

theorem runGate_calls (n : String) (st : PState) :
    ((runGate n st).2).calls = st.calls ∨ ((runGate n st).2).calls = n :: st.calls := by
  unfold runGate
  cases alookup st.gateCache n
  · exact Or.inr rfl
  · exact Or.inl rfl

theorem runGate_eq (n : String) (st : PState) :
    (alookup st.gateCache n = some ((runGate n st).1) ∧ (runGate n st).2 = st) ∨
    (alookup st.gateCache n = none ∧ (runGate n st).1 = st.gateAnswers n ∧
      (runGate n st).2 = { st with gateCache := (n, st.gateAnswers n) :: st.gateCache,
                                   calls := n :: st.calls }) := by
  unfold runGate
  cases hc : alookup st.gateCache n with
  | some b => exact Or.inl ⟨rfl, rfl⟩
  | none => exact Or.inr ⟨rfl, rfl, rfl⟩

theorem evalGate_eq (n : String) (st : PState) :
    evalBinding (Binding.gatePrompt n) st =
      (some (JVal.boolean ((runGate n st).1)), (runGate n st).2) := rfl

theorem evalVar_eq (n : String) (d : JVal) (st : PState) :
    evalBinding (Binding.varPrompt n d) st =
      (some ((runPrompt n st).1), (runPrompt n st).2) := rfl

theorem evalChild_eq_ite (g c : String) (d : JVal) (st : PState) :
    evalBinding (Binding.child g c d) st =
      (if (runGate g st).1 then
        ((some ((runPrompt c ((runGate g st).2)).1), (runPrompt c ((runGate g st).2)).2) :
          Option JVal × PState)
      else (some d, (runGate g st).2)) := rfl

/-- Invoking a group-child closure when the gate resolves false: the raw
declared default is returned and the only state change is the gate's. -/
theorem evalChild_gateFalse (g c : String) (d : JVal) (st : PState)
    (hg : (runGate g st).1 = false) :
    evalBinding (Binding.child g c d) st = (some d, (runGate g st).2) := by
  rw [evalChild_eq_ite, hg]
  simp

/-- Invoking a group-child closure when the gate resolves true: the child
prompt is consulted on the post-gate state. -/
theorem evalChild_gateTrue (g c : String) (d : JVal) (st : PState)
    (hg : (runGate g st).1 = true) :
    evalBinding (Binding.child g c d) st =
      (some ((runPrompt c ((runGate g st).2)).1), (runPrompt c ((runGate g st).2)).2) := by
  rw [evalChild_eq_ite, hg]
  simp

/-- Invoking any binding closure twice in a row: the second invocation
returns the same value and leaves the state untouched (memoization). -/
theorem evalBinding_stable (b : Binding) (st : PState) :
    evalBinding b ((evalBinding b st).2) = evalBinding b st := by
  cases b with
  | constFalse => rfl
  | constDefault v => rfl
  | gatePrompt n =>
    show evalBinding (Binding.gatePrompt n) ((runGate n st).2) = _
    rw [evalGate_eq n ((runGate n st).2), evalGate_eq n st, runGate_idem n st]
  | varPrompt n d =>
    show evalBinding (Binding.varPrompt n d) ((runPrompt n st).2) = _
    rw [evalVar_eq n d ((runPrompt n st).2), evalVar_eq n d st, runPrompt_idem n st]
  | child g c d =>
    cases hg : (runGate g st).1 with
    | true =>
      rw [evalChild_gateTrue g c d st hg]
      have hg2 : (runGate g ((runPrompt c ((runGate g st).2)).2)).1 = true ∧
          (runGate g ((runPrompt c ((runGate g st).2)).2)).2 =
            (runPrompt c ((runGate g st).2)).2 := by
        have hcache : alookup ((runPrompt c ((runGate g st).2)).2).gateCache g =
            some ((runGate g st).1) := by
          rw [runPrompt_gateCache]
          exact runGate_cached g st
        rw [runGate_hit g _ _ hcache]
        exact ⟨hg, rfl⟩
      rw [evalChild_gateTrue g c d _ (hg2.1), hg2.2, runPrompt_idem]
    | false =>
      rw [evalChild_gateFalse g c d st hg]
      have hg2 : (runGate g ((runGate g st).2)) = ((runGate g st).1, (runGate g st).2) :=
        runGate_idem g st
      have hg2f : (runGate g ((runGate g st).2)).1 = false := by
        rw [hg2, hg]
      rw [evalChild_gateFalse g c d _ hg2f, hg2]

/-- The gate-false invariant for one group `k`: the user's answer for the
gate is `false` and nothing cached for it says `true`. -/
def gateFalseInv (k : String) (st : PState) : Prop :=
  st.gateAnswers k = false ∧ ∀ b, alookup st.gateCache k = some b → b = false

theorem runGate_false_of_inv (k : String) (st : PState) (h : gateFalseInv k st) :
    (runGate k st).1 = false := by
  unfold runGate
  cases hc : alookup st.gateCache k with
  | some b => exact h.2 b hc
  | none => exact h.1

theorem gateFalseInv_runGate (k : String) (st : PState) (h : gateFalseInv k st) :
    gateFalseInv k ((runGate k st).2) := by
  constructor
  · rw [runGate_gateAnswers]
    exact h.1
  · intro b hb
    rcases runGate_eq k st with ⟨_, hst⟩ | ⟨_, hval, hst⟩
    · rw [hst] at hb
      exact h.2 b hb
    · rw [hst] at hb
      simp only [alookup, if_pos rfl] at hb
      cases hb
      exact h.1

theorem evalChild_calls_of_inv (k c : String) (w : JVal) (st : PState)
    (h : gateFalseInv k st) :
    gateFalseInv k ((evalBinding (Binding.child k c w) st).2) ∧
      ∀ n, n ∈ ((evalBinding (Binding.child k c w) st).2).calls →
        n ∈ st.calls ∨ n = k := by
  have hf := runGate_false_of_inv k st h
  rw [evalChild_gateFalse k c w st hf]
  refine ⟨gateFalseInv_runGate k st h, ?_⟩
  intro n hn
  rcases runGate_calls k st with hsame | hcons
  · rw [hsame] at hn
    exact Or.inl hn
  · rw [hcons] at hn
    rcases List.mem_cons.mp hn with heq | hmem
    · exact Or.inr heq
    · exact Or.inl hmem

/-- Invoking all child closures of a gate-false group, in any order and
any number of times, never prompts for anything but the gate itself. -/
theorem invokeSeq_children_calls (k : String) (cs : List (String × JVal)) (st : PState)
    (h : gateFalseInv k st) :
    ∀ n, n ∈ (invokeSeq (cs.map (fun cw => Binding.child k cw.1 cw.2)) st).calls →
      n ∈ st.calls ∨ n = k := by
  induction cs generalizing st with
  | nil =>
    intro n hn
    exact Or.inl hn
  | cons cw rest ih =>
    intro n hn
    obtain ⟨hinv, hcalls⟩ := evalChild_calls_of_inv k cw.1 cw.2 st h
    have step : invokeSeq ((cw :: rest).map (fun cw => Binding.child k cw.1 cw.2)) st =
        invokeSeq (rest.map (fun cw => Binding.child k cw.1 cw.2))
          ((evalBinding (Binding.child k cw.1 cw.2) st).2) := rfl
    rw [step] at hn
    rcases ih _ hinv n hn with hmem | hk
    · exact hcalls n hmem
    · exact Or.inr hk

/-! ### Rendering and filesystem lemmas -/

/-- A template with no template expression renders to itself under any
environment. -/
theorem render_id (env : String → Option JVal) (s : String) (h : noTemplateExpr s) :
    renderString env s = some s := by
  unfold renderString
  rw [h]
  show (match renderToks env [] with
        | none => none
        | some rest => some (s ++ rest)) = some s
  show some (s ++ "") = some s
  rw [String.append_empty]

theorem alookup_filter_self {α : Type} (l : List (String × α)) (p : String) :
    alookup (l.filter (fun e => e.1 != p)) p = none := by
  induction l with
  | nil => rfl
  | cons e rest ih =>
    by_cases he : e.1 = p
    · have : (e.1 != p) = false := by simp [he]
      simp only [List.filter_cons, this]
      exact ih
    · have : (e.1 != p) = true := by simp [he]
      simp only [List.filter_cons, this, if_true]
      show (if p = e.1 then some e.2 else alookup (rest.filter (fun e => e.1 != p)) p) = none
      rw [if_neg (fun hpe => he hpe.symm)]
      exact ih

theorem alookup_filter_ne {α : Type} (l : List (String × α)) (p n : String) (hn : n ≠ p) :
    alookup (l.filter (fun e => e.1 != p)) n = alookup l n := by
  induction l with
  | nil => rfl
  | cons e rest ih =>
    by_cases he : e.1 = p
    · have : (e.1 != p) = false := by simp [he]
      simp only [List.filter_cons, this]
      show alookup (rest.filter (fun e => e.1 != p)) n =
        (if n = e.1 then some e.2 else alookup rest n)
      rw [if_neg (fun hne => hn (hne.trans he)), ih]
    · have : (e.1 != p) = true := by simp [he]
      simp only [List.filter_cons, this, if_true]
      show (if n = e.1 then some e.2 else alookup (rest.filter (fun e => e.1 != p)) n) =
        (if n = e.1 then some e.2 else alookup rest n)
      by_cases hne : n = e.1
      · rw [if_pos hne, if_pos hne]
      · rw [if_neg hne, if_neg hne, ih]

theorem fsGet_removeFile_self (fs : FS) (p : String) : fsGet (fsRemoveFile fs p) p = none :=
  alookup_filter_self fs.files p

theorem fsGet_removeFile_ne (fs : FS) (p n : String) (hn : n ≠ p) :
    fsGet (fsRemoveFile fs p) n = fsGet fs n :=
  alookup_filter_ne fs.files p n hn

/-- Reduction of a successful single-file render to its two outcomes. -/
theorem processFile_eq_ok (env : String → Option JVal) (removeFails : String → Bool)
    (destRoot : String) (fs : FS) (rel content newName out : String)
    (hn : renderString env rel = some newName)
    (hc : renderString env content = some out)
    (hrf : removeFails (pathJoin destRoot newName) = false) :
    processFile env removeFails destRoot fs rel content =
      (if isOnlyWhitespace out then
        Except.ok (fsRemoveFile
          (fsAddFile (fsRemoveFile fs (pathJoin destRoot newName))
            (pathJoin destRoot newName) out)
          (pathJoin destRoot newName))
      else
        Except.ok (fsAddFile (fsRemoveFile fs (pathJoin destRoot newName))
          (pathJoin destRoot newName) out)) := by
  unfold processFile
  simp only [hn, hc, hrf, Bool.false_eq_true, if_false]

/-- A removal failure other than "missing" aborts the walk. -/
theorem processFile_removeFailed (env : String → Option JVal) (removeFails : String → Bool)
    (destRoot : String) (fs : FS) (rel content newName : String)
    (hn : renderString env rel = some newName)
    (hrf : removeFails (pathJoin destRoot newName) = true) :
    processFile env removeFails destRoot fs rel content =
      Except.error WalkError.removeFailed := by
  unfold processFile
  simp only [hn, hrf, if_true]

/-- Characterization of a successful single-file render: the target holds
exactly the rendered bytes unless pruned away, other paths are untouched,
and no directory is created or removed. -/
theorem processFile_spec (env : String → Option JVal) (removeFails : String → Bool)
    (destRoot : String) (fs : FS) (rel content newName out : String)
    (hn : renderString env rel = some newName)
    (hc : renderString env content = some out)
    (hrf : removeFails (pathJoin destRoot newName) = false) :
    ∃ fs', processFile env removeFails destRoot fs rel content = Except.ok fs' ∧
      fsGet fs' (pathJoin destRoot newName) =
        (if isOnlyWhitespace out then none else some out) ∧
      (∀ p, p ≠ pathJoin destRoot newName → fsGet fs' p = fsGet fs p) ∧
      fs'.dirs = fs.dirs := by
  rw [processFile_eq_ok env removeFails destRoot fs rel content newName out hn hc hrf]
  by_cases hws : isOnlyWhitespace out
  · rw [if_pos hws, if_pos hws]
    refine ⟨_, rfl, ?_, ?_, rfl⟩
    · exact fsGet_removeFile_self _ _
    · intro p hp
      rw [fsGet_removeFile_ne _ _ _ hp]
      show (if p = pathJoin destRoot newName then some out
            else alookup ((fsRemoveFile fs (pathJoin destRoot newName)).files) p) = fsGet fs p
      rw [if_neg hp]
      exact alookup_filter_ne _ _ _ hp
  · rw [if_neg hws, if_neg hws]
    refine ⟨_, rfl, ?_, ?_, rfl⟩
    · show (if pathJoin destRoot newName = pathJoin destRoot newName then some out
            else alookup ((fsRemoveFile fs (pathJoin destRoot newName)).files)
              (pathJoin destRoot newName)) = some out
      rw [if_pos rfl]
    · intro p hp
      show (if p = pathJoin destRoot newName then some out
            else alookup ((fsRemoveFile fs (pathJoin destRoot newName)).files) p) = fsGet fs p
      rw [if_neg hp]
      exact alookup_filter_ne _ _ _ hp

theorem processFile_dirs (env : String → Option JVal) (removeFails : String → Bool)
    (destRoot : String) (fs fs' : FS) (rel content : String)
    (h : processFile env removeFails destRoot fs rel content = Except.ok fs') :
    fs'.dirs = fs.dirs := by
  cases hn : renderString env rel with
  | none =>
    rw [show processFile env removeFails destRoot fs rel content =
          Except.error WalkError.templateError by unfold processFile; simp only [hn]] at h
    cases h
  | some newName =>
    by_cases hrf : removeFails (pathJoin destRoot newName) = true
    · rw [processFile_removeFailed env removeFails destRoot fs rel content newName hn hrf] at h
      cases h
    · have hrf' : removeFails (pathJoin destRoot newName) = false :=
        Bool.not_eq_true _ ▸ eq_false_of_ne_true hrf
      cases hc : renderString env content with
      | none =>
        rw [show processFile env removeFails destRoot fs rel content =
              Except.error WalkError.templateError by
            unfold processFile; simp only [hn, hc, hrf', Bool.false_eq_true, if_false]] at h
        cases h
      | some out =>
        rw [processFile_eq_ok env removeFails destRoot fs rel content newName out hn hc hrf'] at h
        by_cases hws : isOnlyWhitespace out
        · rw [if_pos hws] at h
          cases h
          rfl
        · rw [if_neg hws] at h
          cases h
          rfl

theorem execEntry_dir_eq (env : String → Option JVal) (removeFails : String → Bool)
    (destRoot : String) (fs : FS) (rel newName : String)
    (hn : renderString env rel = some newName) :
    execEntry env removeFails destRoot fs (Entry.dir rel) =
      Except.ok { fs with dirs := if pathJoin destRoot newName ∈ fs.dirs then fs.dirs
                                  else pathJoin destRoot newName :: fs.dirs } := by
  unfold execEntry
  simp only [hn]

theorem execEntry_dirs_mono (env : String → Option JVal) (removeFails : String → Bool)
    (destRoot : String) (fs fs' : FS) (e : Entry) (d : String)
    (h : execEntry env removeFails destRoot fs e = Except.ok fs')
    (hd : d ∈ fs.dirs) : d ∈ fs'.dirs := by
  cases e with
  | dir rel =>
    cases hn : renderString env rel with
    | none =>
      rw [show execEntry env removeFails destRoot fs (Entry.dir rel) =
            Except.error WalkError.templateError by unfold execEntry; simp only [hn]] at h
      cases h
    | some newName =>
      rw [execEntry_dir_eq env removeFails destRoot fs rel newName hn] at h
      cases h
      show d ∈ (if pathJoin destRoot newName ∈ fs.dirs then fs.dirs
                else pathJoin destRoot newName :: fs.dirs)
      by_cases hmem : pathJoin destRoot newName ∈ fs.dirs
      · rw [if_pos hmem]
        exact hd
      · rw [if_neg hmem]
        exact List.mem_cons_of_mem _ hd
  | file rel content =>
    rw [processFile_dirs env removeFails destRoot fs fs' rel content h]
    exact hd

theorem execute_dirs_mono (env : String → Option JVal) (removeFails : String → Bool)
    (destRoot : String) (entries : List Entry) (fs fs' : FS) (d : String)
    (h : Execute env removeFails destRoot fs entries = Except.ok fs')
    (hd : d ∈ fs.dirs) : d ∈ fs'.dirs := by
  induction entries generalizing fs with
  | nil =>
    cases h
    exact hd
  | cons e rest ih =>
    revert h
    unfold Execute
    cases he : execEntry env removeFails destRoot fs e with
    | error err => intro h; cases h
    | ok fs1 =>
      intro h
      exact ih fs1 h (execEntry_dirs_mono env removeFails destRoot fs fs1 e d he hd)

/-- Unfolding one successful step of the walk. -/
theorem Execute_cons_ok (env : String → Option JVal) (removeFails : String → Bool)
    (destRoot : String) (fs0 fs1 : FS) (e : Entry) (rest : List Entry)
    (h : execEntry env removeFails destRoot fs0 e = Except.ok fs1) :
    Execute env removeFails destRoot fs0 (e :: rest) =
      Execute env removeFails destRoot fs1 rest := by
  show (match execEntry env removeFails destRoot fs0 e with
        | Except.error err => Except.error err
        | Except.ok fs1 => Execute env removeFails destRoot fs1 rest) =
    Execute env removeFails destRoot fs1 rest
  rw [h]

/-- The identity walk: when no relative path and no file content has a
template expression, no file content is whitespace-only, no removal
fails, and no two files render to the same target, the walk succeeds,
every source file reappears byte-for-byte at its joined path, no other
path is touched, and every source directory is created. -/
theorem execute_identity (env : String → Option JVal) (destRoot : String)
    (entries : List Entry) (fs0 : FS)
    (hdirs : ∀ rel, Entry.dir rel ∈ entries → noTemplateExpr rel)
    (hfiles : ∀ rel c, Entry.file rel c ∈ entries →
      noTemplateExpr rel ∧ noTemplateExpr c ∧ isOnlyWhitespace c = false)
    (hnd : ((renderedFiles destRoot entries).map Prod.fst).Nodup) :
    ∃ fs', Execute env (fun _ => false) destRoot fs0 entries = Except.ok fs' ∧
      (∀ rel c, Entry.file rel c ∈ entries → fsGet fs' (pathJoin destRoot rel) = some c) ∧
      (∀ p, p ∉ (renderedFiles destRoot entries).map Prod.fst → fsGet fs' p = fsGet fs0 p) ∧
      (∀ rel, Entry.dir rel ∈ entries → pathJoin destRoot rel ∈ fs'.dirs) := by
  induction entries generalizing fs0 with
  | nil =>
    refine ⟨fs0, rfl, ?_, ?_, ?_⟩
    · intro rel c h
      cases h
    · intro p _
      rfl
    · intro rel h
      cases h
  | cons e rest ih =>
    cases e with
    | dir rel =>
      have hrel := hdirs rel (List.mem_cons_self _ _)
      have hstep : Execute env (fun _ => false) destRoot fs0 (Entry.dir rel :: rest) =
          Execute env (fun _ => false) destRoot
            { fs0 with dirs := if pathJoin destRoot rel ∈ fs0.dirs then fs0.dirs
                               else pathJoin destRoot rel :: fs0.dirs } rest :=
        Execute_cons_ok env (fun _ => false) destRoot fs0 _ (Entry.dir rel) rest
          (execEntry_dir_eq env (fun _ => false) destRoot fs0 rel rel (render_id env rel hrel))
      obtain ⟨fs', hex, hfile', hframe', hdir'⟩ :=
        ih { fs0 with dirs := if pathJoin destRoot rel ∈ fs0.dirs then fs0.dirs
                              else pathJoin destRoot rel :: fs0.dirs }
          (fun r hr => hdirs r (List.mem_cons_of_mem _ hr))
          (fun r c hr => hfiles r c (List.mem_cons_of_mem _ hr)) hnd
      refine ⟨fs', hstep.trans hex, ?_, ?_, ?_⟩
      · intro r c hr
        rcases List.mem_cons.mp hr with heq | hmem
        · cases heq
        · exact hfile' r c hmem
      · intro p hp
        exact hframe' p hp
      · intro r hr
        rcases List.mem_cons.mp hr with heq | hmem
        · cases heq
          refine execute_dirs_mono env (fun _ => false) destRoot rest _ fs'
            (pathJoin destRoot rel) hex ?_
          by_cases hmem0 : pathJoin destRoot rel ∈ fs0.dirs
          · show pathJoin destRoot rel ∈
              (if pathJoin destRoot rel ∈ fs0.dirs then fs0.dirs
               else pathJoin destRoot rel :: fs0.dirs)
            rw [if_pos hmem0]
            exact hmem0
          · show pathJoin destRoot rel ∈
              (if pathJoin destRoot rel ∈ fs0.dirs then fs0.dirs
               else pathJoin destRoot rel :: fs0.dirs)
            rw [if_neg hmem0]
            exact List.mem_cons_self _ _
        · exact hdir' r hmem
    | file rel c =>
      obtain ⟨hrel, hcnt, hws⟩ := hfiles rel c (List.mem_cons_self _ _)
      have hndc : pathJoin destRoot rel ∉ (renderedFiles destRoot rest).map Prod.fst ∧
          ((renderedFiles destRoot rest).map Prod.fst).Nodup := by
        have : (renderedFiles destRoot (Entry.file rel c :: rest)).map Prod.fst =
            pathJoin destRoot rel :: (renderedFiles destRoot rest).map Prod.fst := rfl
        rw [this] at hnd
        exact List.nodup_cons.mp hnd
      obtain ⟨fs1, hpf, hget1, hframe1, hdirs1⟩ :=
        processFile_spec env (fun _ => false) destRoot fs0 rel c rel c
          (render_id env rel hrel) (render_id env c hcnt) rfl
      rw [hws] at hget1
      simp only [Bool.false_eq_true, if_false] at hget1
      have hstep : Execute env (fun _ => false) destRoot fs0 (Entry.file rel c :: rest) =
          Execute env (fun _ => false) destRoot fs1 rest :=
        Execute_cons_ok env (fun _ => false) destRoot fs0 fs1 (Entry.file rel c) rest hpf
      obtain ⟨fs', hex, hfile', hframe', hdir'⟩ :=
        ih fs1 (fun r hr => hdirs r (List.mem_cons_of_mem _ hr))
          (fun r c' hr => hfiles r c' (List.mem_cons_of_mem _ hr)) hndc.2
      refine ⟨fs', hstep.trans hex, ?_, ?_, ?_⟩
      · intro r c' hr
        rcases List.mem_cons.mp hr with heq | hmem
        · cases heq
          rw [hframe' (pathJoin destRoot rel) hndc.1]
          exact hget1
        · exact hfile' r c' hmem
      · intro p hp
        have hp1 : p ∉ (renderedFiles destRoot rest).map Prod.fst := by
          intro hin
          exact hp (List.mem_cons_of_mem _ hin)
        have hpne : p ≠ pathJoin destRoot rel := by
          intro heq
          exact hp (heq ▸ List.mem_cons_self _ _)
        rw [hframe' p hp1]
        exact hframe1 p hpne
      · intro r hr
        rcases List.mem_cons.mp hr with heq | hmem
        · cases heq
        · exact hdir' r hmem

theorem firstIfList_scalar (v : JVal) (hobj : ∀ m, v ≠ JVal.obj m)
    (harr : ∀ xs, v ≠ JVal.arr xs) : firstIfList v = some v := by
  cases v with
  | arr xs => exact absurd rfl (harr xs)
  | obj m => exact absurd rfl (hobj m)
  | str s => rfl
  | num n => rfl
  | boolean b => rfl
  | null => rfl

theorem evalConst_eq (v : JVal) (st : PState) :
    evalBinding (Binding.constDefault v) st = (firstIfList v, st) := rfl

/-! ### The claims -/

/-- C1: In defaults-only mode, every variable of the Context Tree is
bound to its declared default and invoking the binding never touches the
prompt state (no prompt is consulted): a non-group scalar key yields its
scalar, a non-empty-List key yields the list's first element, the gate
of a non-empty Group yields `false`, and a Group child yields its own
default (first element when the default is a List). -/
theorem c1_defaults_bindings_yield_declared_defaults
    (ctx : Context) (hnd : (ctxNames ctx).Nodup) (k : String) (v : JVal)
    (hmem : (k, v) ∈ ctx) :
    ((∀ m, v ≠ JVal.obj m) → (∀ xs, v ≠ JVal.arr xs) →
      BindPrompts true ctx k = some (Binding.constDefault v) ∧
      ∀ st, evalBinding (Binding.constDefault v) st = (some v, st)) ∧
    (∀ x xs, v = JVal.arr (x :: xs) →
      BindPrompts true ctx k = some (Binding.constDefault v) ∧
      ∀ st, evalBinding (Binding.constDefault v) st = (some x, st)) ∧
    (∀ m, v = JVal.obj m → m ≠ [] →
      BindPrompts true ctx k = some Binding.constFalse ∧
      ∀ st, evalBinding Binding.constFalse st = (some (JVal.boolean false), st)) ∧
    (∀ m c w d, v = JVal.obj m → (c, w) ∈ m → firstIfList w = some d →
      BindPrompts true ctx c = some (Binding.constDefault w) ∧
      ∀ st, evalBinding (Binding.constDefault w) st = (some d, st)) := by
  refine ⟨?_, ?_, ?_, ?_⟩
  · intro hobj harr
    refine ⟨bindLookup_scalar true ctx hnd k v hmem hobj, ?_⟩
    intro st
    rw [evalConst_eq, firstIfList_scalar v hobj harr]
  · intro x xs hx
    subst hx
    refine ⟨bindLookup_scalar true ctx hnd k _ hmem (fun m h => by cases h), ?_⟩
    intro st
    rfl
  · intro m hm hne
    subst hm
    exact ⟨bindLookup_gate true ctx hnd k m hmem hne, fun st => rfl⟩
  · intro m c w d hm hcw hd
    subst hm
    refine ⟨bindLookup_child true ctx hnd k m c w hmem hcw, ?_⟩
    intro st
    rw [evalConst_eq, hd]

/-- Witness for C1 at a concrete context. -/
theorem c1_defaults_bindings_yield_declared_defaults_witness :
    BindPrompts true [("name", JVal.str "World")] "name" =
      some (Binding.constDefault (JVal.str "World")) ∧
    evalBinding (Binding.constDefault (JVal.str "World")) pstInit =
      (some (JVal.str "World"), pstInit) := by
  have h := c1_defaults_bindings_yield_declared_defaults [("name", JVal.str "World")]
    (by decide) "name" (JVal.str "World") (List.mem_cons_self _ _)
  obtain ⟨hb, he⟩ := h.1 (fun m hm => by cases hm) (fun xs hx => by cases hx)
  exact ⟨hb, he pstInit⟩

/-- C2 counterexample: in interactive mode with a gate that resolves
false, the child binding for a List default returns the whole list, not
its first element. -/
theorem c2_counterexample :
    BindPrompts false [("g", JVal.obj [("c", JVal.arr [JVal.str "a", JVal.str "b"])])] "c" =
      some (Binding.child "g" "c" (JVal.arr [JVal.str "a", JVal.str "b"])) ∧
    (runGate "g" pstInit).1 = false ∧
    (evalBinding (Binding.child "g" "c" (JVal.arr [JVal.str "a", JVal.str "b"]))
        pstInit).1 = some (JVal.arr [JVal.str "a", JVal.str "b"]) ∧
    some (JVal.arr [JVal.str "a", JVal.str "b"]) ≠ some (JVal.str "a") := by
  refine ⟨rfl, rfl, rfl, ?_⟩
  intro h
  injection h with h2
  cases h2

/-- C2 (amended): invoking a Group child binding in interactive mode first
evaluates the Group's gate; if the gate is true the child resolves via its
prompt, and if false it resolves to the raw declared default value — the
whole List when the default is a List, with no first-element extraction. -/
theorem c2_amended_child_gate_semantics (ctx : Context) (hnd : (ctxNames ctx).Nodup)
    (k : String) (m : List (String × JVal)) (c : String) (w : JVal)
    (hk : (k, JVal.obj m) ∈ ctx) (hc : (c, w) ∈ m) :
    BindPrompts false ctx c = some (Binding.child k c w) ∧
    (∀ st, (runGate k st).1 = true →
      evalBinding (Binding.child k c w) st =
        (some ((runPrompt c ((runGate k st).2)).1), (runPrompt c ((runGate k st).2)).2)) ∧
    (∀ st, (runGate k st).1 = false →
      evalBinding (Binding.child k c w) st = (some w, (runGate k st).2)) := by
  refine ⟨bindLookup_child false ctx hnd k m c w hk hc, ?_, ?_⟩
  · intro st hg
    exact evalChild_gateTrue k c w st hg
  · intro st hg
    exact evalChild_gateFalse k c w st hg

/-- Witness for the amended C2 at a concrete context and state. -/
theorem c2_amended_child_gate_semantics_witness :
    BindPrompts false [("g", JVal.obj [("c", JVal.str "v")])] "c" =
      some (Binding.child "g" "c" (JVal.str "v")) ∧
    evalBinding (Binding.child "g" "c" (JVal.str "v")) pstInit =
      (some (JVal.str "v"), (runGate "g" pstInit).2) := by
  have h := c2_amended_child_gate_semantics [("g", JVal.obj [("c", JVal.str "v")])]
    (by decide) "g" [("c", JVal.str "v")] "c" (JVal.str "v")
    (List.mem_cons_self _ _) (List.mem_cons_self _ _)
  exact ⟨h.1, h.2.2 pstInit rfl⟩

/-- C7: for a Group whose gate resolves false (the user's answer is false
and nothing cached says otherwise), each child is bound to its gate-
consulting closure, and invoking the group's child bindings in any order
never records a prompt call other than possibly the gate's own — zero
prompt calls for the group's children. -/
theorem c7_gate_false_no_child_prompts (ctx : Context) (hnd : (ctxNames ctx).Nodup)
    (k : String) (m : List (String × JVal)) (hk : (k, JVal.obj m) ∈ ctx)
    (st : PState) (hga : st.gateAnswers k = false)
    (hgc : ∀ b, alookup st.gateCache k = some b → b = false) :
    (∀ c w, (c, w) ∈ m → BindPrompts false ctx c = some (Binding.child k c w)) ∧
    ∀ n, n ∈ (invokeSeq (m.map (fun cw => Binding.child k cw.1 cw.2)) st).calls →
      n ∈ st.calls ∨ n = k := by
  refine ⟨?_, invokeSeq_children_calls k m st ⟨hga, hgc⟩⟩
  intro c w hcw
  exact bindLookup_child false ctx hnd k m c w hk hcw

/-- Witness for C7 at a concrete two-child group. -/
theorem c7_gate_false_no_child_prompts_witness :
    BindPrompts false [("g", JVal.obj [("c1", JVal.str "x"), ("c2", JVal.str "y")])] "c1" =
      some (Binding.child "g" "c1" (JVal.str "x")) ∧
    ∀ n, n ∈ (invokeSeq
        ([("c1", JVal.str "x"), ("c2", JVal.str "y")].map
          (fun cw => Binding.child "g" cw.1 cw.2)) pstInit).calls →
      n ∈ pstInit.calls ∨ n = "g" := by
  have h := c7_gate_false_no_child_prompts
    [("g", JVal.obj [("c1", JVal.str "x"), ("c2", JVal.str "y")])] (by decide)
    "g" [("c1", JVal.str "x"), ("c2", JVal.str "y")] (List.mem_cons_self _ _)
    pstInit rfl (fun b hb => by cases hb)
  exact ⟨h.1 "c1" (JVal.str "x") (List.mem_cons_self _ _), h.2⟩

/-- C8 counterexample: a top-level key declared as an empty Group
receives no binding at all, in either mode, so not every top-level key
has a binding. -/
theorem c8_counterexample :
    BindPrompts true [("g", JVal.obj [])] "g" = none ∧
    BindPrompts false [("g", JVal.obj [])] "g" = none :=
  ⟨rfl, rfl⟩

/-- C8 (amended): with distinct names, every top-level key whose value is
not an empty Group, and every Group child, has exactly one binding (the
table is a map, so a name has at most one closure); a key declared as an
empty Group has none.  Invoking any binding twice in a row returns the
same value and leaves the prompt state unchanged the second time
(memoization), including for prompt-backed bindings. -/
theorem c8_amended_bindings_unique_and_stable (d : Bool) (ctx : Context)
    (hnd : (ctxNames ctx).Nodup) :
    (∀ k v, (k, v) ∈ ctx → (∀ m, v ≠ JVal.obj m) → ∃ b, BindPrompts d ctx k = some b) ∧
    (∀ k m, (k, JVal.obj m) ∈ ctx → m ≠ [] → ∃ b, BindPrompts d ctx k = some b) ∧
    (∀ k m c w, (k, JVal.obj m) ∈ ctx → (c, w) ∈ m → ∃ b, BindPrompts d ctx c = some b) ∧
    (∀ k, (k, JVal.obj []) ∈ ctx → BindPrompts d ctx k = none) ∧
    (∀ b st, evalBinding b ((evalBinding b st).2) = evalBinding b st) := by
  refine ⟨?_, ?_, ?_, ?_, ?_⟩
  · intro k v hmem hobj
    exact ⟨_, bindLookup_scalar d ctx hnd k v hmem hobj⟩
  · intro k m hmem hne
    exact ⟨_, bindLookup_gate d ctx hnd k m hmem hne⟩
  · intro k m c w hmem hcw
    exact ⟨_, bindLookup_child d ctx hnd k m c w hmem hcw⟩
  · intro k hmem
    exact bindLookup_emptyGroup d ctx hnd k hmem
  · intro b st
    exact evalBinding_stable b st

/-- Witness for the amended C8 at a concrete context and binding. -/
theorem c8_amended_bindings_unique_and_stable_witness :
    (∃ b, BindPrompts false [("x", JVal.num 1)] "x" = some b) ∧
    evalBinding (Binding.varPrompt "x" (JVal.num 1))
        ((evalBinding (Binding.varPrompt "x" (JVal.num 1)) pstInit).2) =
      evalBinding (Binding.varPrompt "x" (JVal.num 1)) pstInit := by
  have h := c8_amended_bindings_unique_and_stable false [("x", JVal.num 1)] (by decide)
  exact ⟨h.1 "x" (JVal.num 1) (List.mem_cons_self _ _) (fun m hm => by cases hm),
    h.2.2.2.2 (Binding.varPrompt "x" (JVal.num 1)) pstInit⟩

/-- C10: a defaults-mode binding (top-level or Group child) whose
declared default is the empty List is not total: the unguarded `val[0]`
first-element extraction panics, modelled as the binding producing
`none` rather than a value. -/
theorem c10_empty_list_default_panics (ctx : Context) (hnd : (ctxNames ctx).Nodup) :
    (∀ k, (k, JVal.arr []) ∈ ctx →
      BindPrompts true ctx k = some (Binding.constDefault (JVal.arr [])) ∧
      ∀ st, evalBinding (Binding.constDefault (JVal.arr [])) st = (none, st)) ∧
    (∀ k m c, (k, JVal.obj m) ∈ ctx → (c, JVal.arr []) ∈ m →
      BindPrompts true ctx c = some (Binding.constDefault (JVal.arr [])) ∧
      ∀ st, evalBinding (Binding.constDefault (JVal.arr [])) st = (none, st)) := by
  constructor
  · intro k hmem
    exact ⟨bindLookup_scalar true ctx hnd k _ hmem (fun m h => by cases h), fun st => rfl⟩
  · intro k m c hmem hcw
    exact ⟨bindLookup_child true ctx hnd k m c _ hmem hcw, fun st => rfl⟩

/-- Witness for C10 at a concrete context. -/
theorem c10_empty_list_default_panics_witness :
    BindPrompts true [("opts", JVal.arr [])] "opts" =
      some (Binding.constDefault (JVal.arr [])) ∧
    evalBinding (Binding.constDefault (JVal.arr [])) pstInit = (none, pstInit) := by
  have h := c10_empty_list_default_panics [("opts", JVal.arr [])] (by decide)
  obtain ⟨hb, he⟩ := h.1 "opts" (List.mem_cons_self _ _)
  exact ⟨hb, he pstInit⟩

/-- C3: rendering a source file named `greeting.txt` whose content is
exactly `Hello, \x7b\x7b.name\x7d\x7d!`, with a Binding Table environment
in which the variable `name` resolves to the string "World", produces a
destination file `greeting.txt` under the destination root whose content
is exactly `Hello, World!`. -/
theorem c3_greeting_rendered (env : String → Option JVal) (fs0 : FS)
    (henv : env "name" = some (JVal.str "World")) :
    ∃ fs', Execute env (fun _ => false) "dst" fs0
        [Entry.file "greeting.txt" "Hello, \x7b\x7b.name\x7d\x7d!"] = Except.ok fs' ∧
      fsGet fs' "dst/greeting.txt" = some "Hello, World!" := by
  have hn : renderString env "greeting.txt" = some "greeting.txt" :=
    render_id env "greeting.txt" rfl
  have h1 : renderToks env [Tok.ref "name", Tok.lit "!"] = some "World!" := by
    show (match env "name" with
          | none => none
          | some v =>
            match jvalRender v with
            | none => none
            | some s =>
              match renderToks env [Tok.lit "!"] with
              | none => none
              | some rest => some (s ++ rest)) = some "World!"
    rw [henv]
    rfl
  have hc : renderString env "Hello, \x7b\x7b.name\x7d\x7d!" = some "Hello, World!" := by
    show (match renderToks env [Tok.ref "name", Tok.lit "!"] with
          | none => none
          | some rest => some ("Hello, " ++ rest)) = some "Hello, World!"
    rw [h1]
    rfl
  obtain ⟨fs1, hpf, hget, _, _⟩ := processFile_spec env (fun _ => false) "dst" fs0
    "greeting.txt" "Hello, \x7b\x7b.name\x7d\x7d!" "greeting.txt" "Hello, World!" hn hc rfl
  refine ⟨fs1, ?_, ?_⟩
  · exact (Execute_cons_ok env (fun _ => false) "dst" fs0 fs1
      (Entry.file "greeting.txt" "Hello, \x7b\x7b.name\x7d\x7d!") [] hpf).trans rfl
  · exact hget

/-- Witness for C3 at a concrete environment. -/
theorem c3_greeting_rendered_witness :
    ∃ fs', Execute (fun n => if n = "name" then some (JVal.str "World") else none)
        (fun _ => false) "dst" ⟨[], []⟩
        [Entry.file "greeting.txt" "Hello, \x7b\x7b.name\x7d\x7d!"] = Except.ok fs' ∧
      fsGet fs' "dst/greeting.txt" = some "Hello, World!" :=
  c3_greeting_rendered (fun n => if n = "name" then some (JVal.str "World") else none)
    ⟨[], []⟩ rfl

/-- C4 counterexample: a rendered content consisting of a single carriage
return contains no space, tab or newline — so by the claim it has "a
non-whitespace character" and should be present — yet the code's
whitespace class (Go regexp) covers it and the file is pruned. -/
theorem c4_counterexample :
    renderString (fun _ => none) "\x0d" = some "\x0d" ∧
    specWhitespaceChar '\x0d' = false ∧ '\x0d' ∈ "\x0d".data ∧
    Execute (fun _ => none) (fun _ => false) "dst" ⟨[], []⟩ [Entry.file "a.txt" "\x0d"] =
      Except.ok ⟨[], []⟩ ∧
    fsGet (⟨[], []⟩ : FS) "dst/a.txt" = none := by
  refine ⟨rfl, rfl, ?_, rfl, rfl⟩
  decide

/-- C4 (amended): after a successful file render, the generated file is
absent from the destination when its rendered content consists only of
characters of the code's whitespace class — space, tab, newline,
carriage return, form feed (zero bytes included) — and present with its
content byte-exact to the template's output when it contains any
character outside that class. -/
theorem c4_amended_pruning (env : String → Option JVal) (removeFails : String → Bool)
    (destRoot : String) (fs : FS) (rel content newName out : String)
    (hn : renderString env rel = some newName)
    (hc : renderString env content = some out)
    (hrf : removeFails (pathJoin destRoot newName) = false) :
    ∃ fs', processFile env removeFails destRoot fs rel content = Except.ok fs' ∧
      (isOnlyWhitespace out = true → fsGet fs' (pathJoin destRoot newName) = none) ∧
      (isOnlyWhitespace out = false → fsGet fs' (pathJoin destRoot newName) = some out) := by
  obtain ⟨fs', hpf, hget, _, _⟩ :=
    processFile_spec env removeFails destRoot fs rel content newName out hn hc hrf
  refine ⟨fs', hpf, ?_, ?_⟩
  · intro hws
    rw [hget, if_pos hws]
  · intro hws
    rw [hget, hws, if_neg Bool.false_ne_true]

/-- Witness for the amended C4 at a concrete file. -/
theorem c4_amended_pruning_witness :
    ∃ fs', processFile (fun _ => none) (fun _ => false) "dst" ⟨[], []⟩ "a.txt" "x" =
        Except.ok fs' ∧ fsGet fs' "dst/a.txt" = some "x" := by
  obtain ⟨fs', hpf, _, hpos⟩ := c4_amended_pruning (fun _ => none) (fun _ => false)
    "dst" ⟨[], []⟩ "a.txt" "x" "a.txt" "x" rfl rfl rfl
  exact ⟨fs', hpf, hpos rfl⟩

/-- C5: the destination file is removed before writing, so after a
successful render the target holds exactly the newly rendered bytes (or
is pruned when they are whitespace-only) with no residual bytes from any
pre-existing file, however long it was — the conclusion holds for every
starting destination tree, so a missing pre-existing file is not an
error; a removal failure other than "missing" is fatal and aborts the
walk. -/
theorem c5_overwrite_semantics (env : String → Option JVal) (removeFails : String → Bool)
    (destRoot : String) (fs : FS) (rel content newName out : String)
    (hn : renderString env rel = some newName)
    (hc : renderString env content = some out) :
    (removeFails (pathJoin destRoot newName) = false →
      ∃ fs', processFile env removeFails destRoot fs rel content = Except.ok fs' ∧
        fsGet fs' (pathJoin destRoot newName) =
          (if isOnlyWhitespace out then none else some out)) ∧
    (removeFails (pathJoin destRoot newName) = true →
      processFile env removeFails destRoot fs rel content =
        Except.error WalkError.removeFailed) := by
  constructor
  · intro hrf
    obtain ⟨fs', hpf, hget, _, _⟩ :=
      processFile_spec env removeFails destRoot fs rel content newName out hn hc hrf
    exact ⟨fs', hpf, hget⟩
  · intro hrf
    exact processFile_removeFailed env removeFails destRoot fs rel content newName hn hrf

/-- Witness for C5: a pre-existing longer file is fully overwritten by a
shorter render. -/
theorem c5_overwrite_semantics_witness :
    ∃ fs', processFile (fun _ => none) (fun _ => false) "dst"
        ⟨[("dst/a.txt", "old-much-longer-content")], []⟩ "a.txt" "n" = Except.ok fs' ∧
      fsGet fs' "dst/a.txt" = some "n" := by
  obtain ⟨h1, _⟩ := c5_overwrite_semantics (fun _ => none) (fun _ => false) "dst"
    ⟨[("dst/a.txt", "old-much-longer-content")], []⟩ "a.txt" "n" "a.txt" "n" rfl rfl
  obtain ⟨fs', hpf, hget⟩ := h1 rfl
  exact ⟨fs', hpf, hget⟩

/-- C6 counterexample: a source tree consisting of a single file whose
content is one space — no template expression anywhere — renders to an
empty destination: the pruner deletes the whitespace-only file, so the
source tree is not reproduced byte-for-byte. -/
theorem c6_counterexample :
    noTemplateExpr "a.txt" ∧ noTemplateExpr " " ∧
    Execute (envOfDefaults []) (fun _ => false) "dst" ⟨[], []⟩ [Entry.file "a.txt" " "] =
      Except.ok ⟨[], []⟩ ∧
    fsGet (⟨[], []⟩ : FS) "dst/a.txt" = none :=
  ⟨rfl, rfl, rfl, rfl⟩

/-- C6 (amended): for a source tree in which no relative path and no file
content contains a template expression, no file content is empty or
whitespace-only, and no two files share a rendered target, rendering
into an empty destination reproduces the source tree byte-for-byte:
every source file reappears at its joined path with identical content,
every source directory is created, and no other path is present. -/
theorem c6_amended_identity_render (env : String → Option JVal) (destRoot : String)
    (entries : List Entry)
    (hdirs : ∀ rel, Entry.dir rel ∈ entries → noTemplateExpr rel)
    (hfiles : ∀ rel c, Entry.file rel c ∈ entries →
      noTemplateExpr rel ∧ noTemplateExpr c ∧ isOnlyWhitespace c = false)
    (hnd : ((renderedFiles destRoot entries).map Prod.fst).Nodup) :
    ∃ fs', Execute env (fun _ => false) destRoot ⟨[], []⟩ entries = Except.ok fs' ∧
      (∀ rel c, Entry.file rel c ∈ entries → fsGet fs' (pathJoin destRoot rel) = some c) ∧
      (∀ p, p ∉ (renderedFiles destRoot entries).map Prod.fst → fsGet fs' p = none) ∧
      (∀ rel, Entry.dir rel ∈ entries → pathJoin destRoot rel ∈ fs'.dirs) := by
  obtain ⟨fs', hex, hf, hfr, hd⟩ :=
    execute_identity env destRoot entries ⟨[], []⟩ hdirs hfiles hnd
  exact ⟨fs', hex, hf, fun p hp => hfr p hp, hd⟩

/-- Witness for the amended C6 at a concrete one-directory, one-file tree. -/
theorem c6_amended_identity_render_witness :
    ∃ fs', Execute (envOfDefaults []) (fun _ => false) "dst" ⟨[], []⟩
        [Entry.dir "sub", Entry.file "a.txt" "hello"] = Except.ok fs' ∧
      fsGet fs' "dst/a.txt" = some "hello" ∧ "dst/sub" ∈ fs'.dirs := by
  have hdirs : ∀ rel, Entry.dir rel ∈ [Entry.dir "sub", Entry.file "a.txt" "hello"] →
      noTemplateExpr rel := by
    intro rel hr
    rcases List.mem_cons.mp hr with h | h
    · cases h
      rfl
    · rcases List.mem_cons.mp h with h2 | h2
      · cases h2
      · cases h2
  have hfiles : ∀ rel c, Entry.file rel c ∈ [Entry.dir "sub", Entry.file "a.txt" "hello"] →
      noTemplateExpr rel ∧ noTemplateExpr c ∧ isOnlyWhitespace c = false := by
    intro rel c hr
    rcases List.mem_cons.mp hr with h | h
    · cases h
    · rcases List.mem_cons.mp h with h2 | h2
      · cases h2
        exact ⟨rfl, rfl, rfl⟩
      · cases h2
  obtain ⟨fs', hex, hf, _, hd⟩ := c6_amended_identity_render (envOfDefaults []) "dst"
    [Entry.dir "sub", Entry.file "a.txt" "hello"] hdirs hfiles (by decide)
  exact ⟨fs', hex, hf "a.txt" "hello" (List.mem_cons_of_mem _ (List.mem_cons_self _ _)),
    hd "sub" (List.mem_cons_self _ _)⟩

/-- C9: loading the context file: when the file is absent, loading
succeeds with the empty Context Tree and the run proceeds to the walk
over it; when the file is present but the decoder rejects its content,
loading is a fatal parse error and the whole run fails with it before
any entry is rendered, whatever the source tree and destination. -/
theorem c9_context_loading (decode : String → Option Context) :
    (loadContext decode FileRead.absent = Except.ok []) ∧
    (∀ removeFails destRoot entries fs0,
      runTemplate decode FileRead.absent removeFails destRoot entries fs0 =
        (match Execute (envOfDefaults []) removeFails destRoot fs0 entries with
         | Except.error e => Except.error (RunError.walk e)
         | Except.ok fs => Except.ok fs)) ∧
    (∀ s, decode s = none →
      loadContext decode (FileRead.content s) = Except.error LoadError.parseError ∧
      ∀ removeFails destRoot entries fs0,
        runTemplate decode (FileRead.content s) removeFails destRoot entries fs0 =
          Except.error (RunError.load LoadError.parseError)) := by
  refine ⟨rfl, fun _ _ _ _ => rfl, ?_⟩
  intro s hs
  have hl : loadContext decode (FileRead.content s) = Except.error LoadError.parseError := by
    show (match decode s with
          | none => Except.error LoadError.parseError
          | some ctx => Except.ok ctx) = Except.error LoadError.parseError
    rw [hs]
  refine ⟨hl, ?_⟩
  intro removeFails destRoot entries fs0
  unfold runTemplate
  rw [hl]

/-- Witness for C9 at a concrete rejecting decoder. -/
theorem c9_context_loading_witness :
    loadContext (fun _ => none) (FileRead.content "not json") =
      Except.error LoadError.parseError ∧
    runTemplate (fun _ => none) (FileRead.content "not json") (fun _ => false) "dst"
      [] ⟨[], []⟩ = Except.error (RunError.load LoadError.parseError) := by
  obtain ⟨hl, hrun⟩ := (c9_context_loading (fun _ => none)).2.2 "not json" rfl
  exact ⟨hl, hrun (fun _ => false) "dst" [] ⟨[], []⟩⟩

end Boilr
